import Mathlib

/-!
Verification of the Minta `BitcoinD` actor (src/bitcoind.rs) against its
natural-language specification.

The embedding models the actor state as an explicit structure, the RPC
transport and the miniscript descriptor library as an oracle of
call results, every randomness source (`rand::thread_rng`) as an explicit
draw function, and each handler as a pure function from state, message and
oracle to an optional (state, action-trace) pair.  A `none` result models a
Rust panic (abort): the only panic site reachable in the translated code is
`rng.gen_range(lo..hi)` on an empty range.  `u32` arithmetic that can
overflow is taken modulo `2 ^ 32` (release-profile wrapping semantics).
-/

namespace Minta

/-- u32 modulus: `start_index + count` style additions wrap at this bound. -/
def U32 : ℕ := 4294967296

/-- Fixed-point scale used by `get_random_tx_count` (`const MULTIPLIER`). -/
def MULTIPLIER : ℤ := 10000

/-- Cap on transactions per block (`const MAX_TX_PER_BLOCK`). -/
def MAX_TX_PER_BLOCK : ℤ := 10000

/-- Scaled per-block send rate from `get_random_tx_count`:
`((send as f64 / block as f64).min(MAX_TX_PER_BLOCK as f64) * MULTIPLIER as f64) as i32`.
Modelled in exact integer arithmetic: the `as i32` cast truncates toward
zero, which on these non-negative values is the floor, and
`send_per_block_eq_floor` below proves this definition equal to the
real-arithmetic value `⌊min (send / block) 10000 * 10000⌋` whenever
`block ≠ 0`.  For `block = 0` the f64 quotient is either `+inf` (`send > 0`)
or NaN (`send = 0`); in both cases Rust's `f64::min` returns the other
operand `10000.0`, so the scaled rate is `10000 * 10000`.  At the concrete
inputs used in the theorems below the f64 computation is exact, so this
model agrees with it. -/
def send_per_block (send block : ℕ) : ℤ :=
  if block = 0 then MULTIPLIER * MAX_TX_PER_BLOCK
  else if 10000 * block ≤ send then MULTIPLIER * MAX_TX_PER_BLOCK
  else ((send * 10000) / block : ℕ)

lemma send_per_block_eq_floor (send block : ℕ) (h : block ≠ 0) :
    send_per_block send block =
      ⌊min ((send : ℚ) / (block : ℚ)) (MAX_TX_PER_BLOCK : ℚ) * (MULTIPLIER : ℚ)⌋ := by
  have hb : 0 < block := Nat.pos_of_ne_zero h
  have hbq : (0 : ℚ) < (block : ℚ) := by exact_mod_cast hb
  unfold send_per_block
  rw [if_neg h]
  rcases le_or_lt (10000 * block) send with hle | hlt
  · rw [if_pos hle]
    have hmin : min ((send : ℚ) / (block : ℚ)) (MAX_TX_PER_BLOCK : ℚ)
        = (MAX_TX_PER_BLOCK : ℚ) := by
      rw [min_eq_right]
      rw [le_div_iff₀ hbq]
      simp only [MAX_TX_PER_BLOCK]
      push_cast
      exact_mod_cast by linarith [hle]
    rw [hmin]
    norm_num [MULTIPLIER, MAX_TX_PER_BLOCK]
  · rw [if_neg (not_le.mpr hlt)]
    have hmin : min ((send : ℚ) / (block : ℚ)) (MAX_TX_PER_BLOCK : ℚ)
        = (send : ℚ) / (block : ℚ) := by
      rw [min_eq_left]
      rw [div_le_iff₀ hbq]
      simp only [MAX_TX_PER_BLOCK]
      push_cast
      exact_mod_cast by linarith [hlt]
    rw [hmin]
    have hexp : ((send : ℚ) / (block : ℚ)) * (MULTIPLIER : ℚ)
        = (((send * 10000 : ℕ) : ℤ) : ℚ) / ((block : ℕ) : ℚ) := by
      simp only [MULTIPLIER]
      push_cast
      ring
    rw [hexp, Rat.floor_intCast_div_natCast]
    exact_mod_cast rfl

/-- Model of `BitcoinD::get_random_tx_count`.  `draw hi` stands for
`rng.gen_range(0..hi)`; validity of the draw (`0 ≤ draw hi < hi`) is a
hypothesis of the theorems that need it. -/
def get_random_tx_count (send block : ℕ) (draw : ℤ → ℤ) : ℕ :=
  if send_per_block send block ≤ MULTIPLIER then
    -- less than one tx/block
    if send_per_block send block < draw MULTIPLIER then 1 else 0
  else
    -- more than one tx per block
    if MULTIPLIER < draw (send_per_block send block) then
      (draw (send_per_block send block) / MULTIPLIER).toNat
    else 0

lemma send_per_block_nonneg (send block : ℕ) : 0 ≤ send_per_block send block := by
  unfold send_per_block
  split
  · norm_num [MULTIPLIER, MAX_TX_PER_BLOCK]
  · split
    · norm_num [MULTIPLIER, MAX_TX_PER_BLOCK]
    · exact_mod_cast Nat.zero_le _

lemma send_per_block_le (send block : ℕ) : send_per_block send block ≤ 100000000 := by
  unfold send_per_block
  split
  · norm_num [MULTIPLIER, MAX_TX_PER_BLOCK]
  · rename_i hbz
    split
    · norm_num [MULTIPLIER, MAX_TX_PER_BLOCK]
    · rename_i hlt
      have hb : 0 < block := Nat.pos_of_ne_zero hbz
      have h1 : (send * 10000) / block < 100000000 := by
        rw [Nat.div_lt_iff_lt_mul hb]
        have h2 : send < 10000 * block := by omega
        calc send * 10000 < 10000 * block * 10000 := by
              exact Nat.mul_lt_mul_of_lt_of_le h2 (le_refl 10000) (by norm_num)
          _ = 100000000 * block := by ring
      exact_mod_cast Nat.le_of_lt h1

/-- C9: for every input pair, including `block = 0`, the computed transaction
count is at most the cap of 10000 per block (non-negativity is by the `ℕ`
return type, mirroring the `u32` return type in the source). -/
theorem C9_tx_count_never_exceeds_cap (send block : ℕ) (draw : ℤ → ℤ)
    (hdraw : ∀ hi : ℤ, 0 < hi → 0 ≤ draw hi ∧ draw hi < hi) :
    get_random_tx_count send block draw ≤ 10000 := by
  unfold get_random_tx_count
  split
  · split <;> norm_num
  · rename_i hgt
    have hpos : (0 : ℤ) < send_per_block send block := by
      simp only [MULTIPLIER, not_le] at hgt
      omega
    have hd := hdraw (send_per_block send block) hpos
    have hle := send_per_block_le send block
    split
    · have h1 : draw (send_per_block send block) ≤ 99999999 := by omega
      have h2 : draw (send_per_block send block) / MULTIPLIER ≤ 99999999 / 10000 := by
        simp only [MULTIPLIER]
        exact Int.ediv_le_ediv (by norm_num) h1
      have h3 : (99999999 : ℤ) / 10000 = 9999 := by decide
      omega
    · norm_num

/-- C9 witness: concrete instantiation at `send = 7`, `block = 0` with the
constant-zero draw. -/
theorem C9_tx_count_never_exceeds_cap_witness :
    (∀ hi : ℤ, 0 < hi → 0 ≤ (fun _ : ℤ => (0 : ℤ)) hi ∧ (fun _ : ℤ => (0 : ℤ)) hi < hi) ∧
    get_random_tx_count 7 0 (fun _ => 0) ≤ 10000 :=
  ⟨fun _ h => ⟨le_refl 0, h⟩,
   C9_tx_count_never_exceeds_cap 7 0 (fun _ => 0) (fun _ h => ⟨le_refl 0, h⟩)⟩

lemma send_per_block_one_ten : send_per_block 1 10 = 1000 := by decide

lemma tx_count_one_ten (r : ℤ) :
    get_random_tx_count 1 10 (fun _ => r) = if 1000 < r then 1 else 0 := by
  unfold get_random_tx_count
  rw [send_per_block_one_ten]
  norm_num [MULTIPLIER]

/-- C1 (code bug): with `count = 1, blocks = 10` the scaled rate is 1000 and
the code emits one transaction exactly when the uniform draw
`r ∈ [0, 10000)` satisfies `r > 1000`, i.e. for 8999 of the 10000
equiprobable draws.  The expected value is therefore 0.8999, far outside the
range [0.08, 0.12] demanded by the target rate of 0.1 tx/block: the
comparison in the Bernoulli branch is inverted relative to the documented
rate approximation. -/
theorem C1_bernoulli_branch_mean_is_08999 :
    ((Finset.range 10000).sum fun r => get_random_tx_count 1 10 (fun _ => (r : ℤ))) = 8999 ∧
    ¬((8 : ℚ) / 100 ≤ 8999 / 10000 ∧ (8999 : ℚ) / 10000 ≤ 12 / 100) := by
  constructor
  · have h1 : ∀ r : ℕ, get_random_tx_count 1 10 (fun _ => (r : ℤ)) =
        if 1000 < r then 1 else 0 := by
      intro r
      rw [tx_count_one_ten]
      congr 1
      simp only [eq_iff_iff]
      exact_mod_cast Iff.rfl
    calc ((Finset.range 10000).sum fun r => get_random_tx_count 1 10 (fun _ => (r : ℤ)))
        = (Finset.range 10000).sum fun r => if 1000 < r then 1 else 0 := by
          exact Finset.sum_congr rfl fun r _ => h1 r
      _ = ((Finset.range 10000).filter fun r => 1000 < r).card := by
          simp [Finset.sum_boole]
      _ = (Finset.Ico 1001 10000).card := by
          have hset : ((Finset.range 10000).filter fun r => 1000 < r)
              = Finset.Ico 1001 10000 := by
            ext i
            simp only [Finset.mem_filter, Finset.mem_range, Finset.mem_Ico]
            omega
          rw [hset]
      _ = 8999 := by rw [Nat.card_Ico]
  · intro h
    have := h.2
    norm_num at this

/-- Authentication variants (`enum AuthMethod`). -/
inductive AuthMethod
  | cookie (cookie_path : String)
  | rpcAuth (user password : String)
  deriving DecidableEq, Repr

/-- Parameters of `struct SendToDescriptor` (amounts in satoshi). -/
structure SendToDescriptor where
  count : ℕ
  amount_min : ℕ
  amount_max : ℕ
  descriptor : String
  start_index : ℕ
  deriving DecidableEq, Repr

/-- Parameters of `struct GenerateToDescriptor`. -/
structure GenerateToDescriptor where
  blocks : ℕ
  descriptor : String
  start_index : ℕ
  deriving DecidableEq, Repr

/-- Configuration of `struct SendEveryBlock`, including the mutable cursor
`actual_index`. -/
structure SendEveryBlock where
  count : ℕ
  amount_min : ℕ
  amount_max : ℕ
  descriptor : String
  start_index : ℕ
  blocks : ℕ
  actual_index : Option ℕ
  deriving DecidableEq, Repr

/-- Message taxonomy (`enum BitcoinMessage`), commands, GUI-direction status
events and loopback events alike. -/
inductive BitcoinMessage
  | setCredentials (address : String) (auth : AuthMethod)
  | connect
  | disconnect
  | generate (blocks : ℕ)
  | generateToSelf (blocks : ℕ)
  | generateToAddress (blocks : ℕ) (address : String)
  | generateToDescriptor (p : GenerateToDescriptor)
  | getNewAddress
  | sendToAddress (amount : ℕ) (address : String)
  | sendToDescriptor (p : SendToDescriptor)
  | enableSendEveryBlock (p : SendEveryBlock)
  | disableSendEveryBlock
  | startAutoBlock (delay_ms : ℕ)
  | stopAutoBlock
  | updateBlockchainTip (blocks : ℕ)
  | updateBalance (sat : ℕ)
  | generateResponse (ok : Bool)
  | sendResponse (ok : Bool)
  | sendMessage (text : String)
  | connected (ok : Bool)
  | newAddress (address : String)
  | incrementSendDescriptorIndex
  | incrementGenerateDescriptorIndex
  | blockMined
  | failMineBlock (reason : String)
  | minerStopped
  | batchSent
  deriving DecidableEq, Repr

/-- Shape of a failed `bitcoincore_rpc` call: either a JSON-RPC error object
carrying a numeric code, or any other transport-level error. -/
inductive RpcFailure
  | jsonRpcCode (code : ℤ)
  | otherErr
  deriving DecidableEq, Repr

/-- Typed error taxonomy (`enum Error`). -/
inductive Error
  | credentialMissing
  | notConnected
  | parseDescriptor
  | deriveDescriptor
  | rpc (e : RpcFailure)
  deriving DecidableEq, Repr

/-- Failure modes of the miniscript descriptor pipeline inside
`address_from_descriptor`: parse-stage failures map to `Error.parseDescriptor`,
derivation-stage failures to `Error.deriveDescriptor`. -/
inductive DeriveFailure
  | parseFail
  | deriveFail
  deriving DecidableEq, Repr

def DeriveFailure.toError : DeriveFailure → Error
  | .parseFail => .parseDescriptor
  | .deriveFail => .deriveDescriptor

/-- Oracle of external-world results: each field fixes the outcome of one
opaque collaborator (the JSON-RPC backend, the miniscript library, the
thread-local RNG, key generation).  The actor logic under verification is a
pure function of the state, the message and this oracle. -/
structure Oracle where
  clientNew : Except RpcFailure Unit
  walletClientNew : Except RpcFailure Unit
  loadWallet : Except RpcFailure Unit
  createWallet : Except RpcFailure Unit
  settxfee : Except RpcFailure Unit
  generateToAddressRpc : ℕ → String → Except RpcFailure Unit
  getNewAddressRpc : Except RpcFailure String
  getBlockchainInfoBlocks : Except RpcFailure ℕ
  getBalanceRpc : Except RpcFailure ℕ
  sendToAddressRpc : String → ℕ → Except RpcFailure Unit
  parseOk : String → Bool
  singleDerive : String → ℕ → Except DeriveFailure String
  draw : ℤ → ℤ
  drawRange : ℕ → ℕ → ℕ
  freshAddress : String

/-- Actor-owned mutable state (`struct BitcoinD`): RPC handles are modelled by
their presence, the auto-block cancellation sender by a flag, channels and the
secp context are capabilities that do not carry verification-relevant state. -/
structure BitcoinD where
  client : Bool
  wallet_client : Bool
  address : Option String
  auth : Option AuthMethod
  mining_busy : Bool
  auto_block_sender : Bool
  send_every_block : Option SendEveryBlock
  deriving DecidableEq, Repr

/-- RPC calls issued against the backend, recorded in traces. -/
inductive RpcCall
  | loadWalletCall
  | createWalletCall
  | settxfeeCall
  | generateCall (blocks : ℕ) (address : String)
  | getNewAddressCall
  | getBlockchainInfoCall
  | getBalanceCall
  | sendCall (address : String) (amount : ℕ)
  deriving DecidableEq, Repr

/-- Model of `BitcoinD::connect`: requires credentials, builds the node and
wallet endpoints, loads the wallet with idempotent create/load recovery on
codes `-18` and `-35` (and only then issues `settxfee`), and returns the RPC
call trace alongside the result.  The wallet endpoint creation error
propagates before the node endpoint result is inspected, mirroring the `?` on
the wallet client in the source. -/
def connect (s : BitcoinD) (o : Oracle) : Except Error Unit × List RpcCall :=
  match s.address, s.auth with
  | some _, some _ =>
    match o.walletClientNew with
    | .error e => (.error (.rpc e), [])
    | .ok _ =>
      match o.clientNew with
      | .error e => (.error (.rpc e), [])
      | .ok _ =>
        match o.loadWallet with
        | .ok _ => (.ok (), [.loadWalletCall])
        | .error f =>
          match f with
          | .jsonRpcCode code =>
            if code = -18 then
              -- wallet does not exist: create it, then settxfee
              match o.createWallet with
              | .error e => (.error (.rpc e), [.loadWalletCall, .createWalletCall])
              | .ok _ =>
                match o.settxfee with
                | .error e =>
                  (.error (.rpc e), [.loadWalletCall, .createWalletCall, .settxfeeCall])
                | .ok _ => (.ok (), [.loadWalletCall, .createWalletCall, .settxfeeCall])
            else if code = -35 then
              -- wallet already loaded: fall through to settxfee
              match o.settxfee with
              | .error e => (.error (.rpc e), [.loadWalletCall, .settxfeeCall])
              | .ok _ => (.ok (), [.loadWalletCall, .settxfeeCall])
            else (.error (.rpc f), [.loadWalletCall])
          | .otherErr => (.error (.rpc f), [.loadWalletCall])
  | _, _ => (.error .credentialMissing, [])

/-- Model of `BitcoinD::is_connected`: node-handle presence only. -/
def is_connected (s : BitcoinD) : Bool := s.client

/-- Model of `BitcoinD::disconnect`: drops both handles and the auth method
(the address string is untouched in the source) and announces
`Connected(false)`. -/
def disconnect (s : BitcoinD) : BitcoinD × List BitcoinMessage :=
  ({ s with client := false, wallet_client := false, auth := none },
   [BitcoinMessage.connected false])

/-- Oracle in which every external interaction succeeds. -/
def okOracle : Oracle where
  clientNew := .ok ()
  walletClientNew := .ok ()
  loadWallet := .ok ()
  createWallet := .ok ()
  settxfee := .ok ()
  generateToAddressRpc := fun _ _ => .ok ()
  getNewAddressRpc := .ok "bcrt1qnewaddr"
  getBlockchainInfoBlocks := .ok 0
  getBalanceRpc := .ok 0
  sendToAddressRpc := fun _ _ => .ok ()
  parseOk := fun _ => true
  singleDerive := fun _ _ => .ok "bcrt1qderived"
  draw := fun _ => 0
  drawRange := fun lo _ => lo
  freshAddress := "mrandomaddr"

/-- Disconnected state holding credentials. -/
def credState : BitcoinD where
  client := false
  wallet_client := false
  address := some "127.0.0.1:18443"
  auth := some (.cookie "/tmp/.cookie")
  mining_busy := false
  auto_block_sender := false
  send_every_block := none

/-- C2 counterexample: when `load_wallet` succeeds directly, `connect` returns
success without ever issuing `settxfee`, contradicting the claim that every
successful `connect` issues `settxfee` before returning. -/
theorem C2_load_ok_skips_settxfee :
    (connect credState okOracle).1 = .ok () ∧
    RpcCall.settxfeeCall ∉ (connect credState okOracle).2 := by
  constructor
  · rfl
  · decide

/-- C2 amended: `settxfee` is issued, and its failure is fatal, exactly on the
two recovery paths of the wallet bootstrap (`load_wallet` failing with RPC
code `-18` followed by a successful `create_wallet`, or failing with `-35`);
when `load_wallet` succeeds directly, `connect` returns success with
`load_wallet` as the only RPC call and `settxfee` is skipped. -/
theorem C2_settxfee_on_recovery_paths (s : BitcoinD) (o : Oracle)
    (ha : s.address.isSome) (hau : s.auth.isSome)
    (hcn : o.clientNew = .ok ()) (hwn : o.walletClientNew = .ok ()) :
    (o.loadWallet = .ok () → connect s o = (.ok (), [.loadWalletCall])) ∧
    (o.loadWallet = .error (.jsonRpcCode (-18)) → o.createWallet = .ok () →
      RpcCall.settxfeeCall ∈ (connect s o).2 ∧
        ((connect s o).1 = .ok () ↔ o.settxfee = .ok ())) ∧
    (o.loadWallet = .error (.jsonRpcCode (-35)) →
      RpcCall.settxfeeCall ∈ (connect s o).2 ∧
        ((connect s o).1 = .ok () ↔ o.settxfee = .ok ())) := by
  obtain ⟨a, ha⟩ := Option.isSome_iff_exists.mp ha
  obtain ⟨u, hau⟩ := Option.isSome_iff_exists.mp hau
  refine ⟨fun hlw => ?_, fun hlw hcw => ?_, fun hlw => ?_⟩
  · simp [connect, ha, hau, hcn, hwn, hlw]
  · cases hst : o.settxfee with
    | ok v =>
      cases v
      simp [connect, ha, hau, hcn, hwn, hlw, hcw, hst]
    | error e =>
      simp [connect, ha, hau, hcn, hwn, hlw, hcw, hst]
  · cases hst : o.settxfee with
    | ok v =>
      cases v
      simp [connect, ha, hau, hcn, hwn, hlw, hst]
    | error e =>
      simp [connect, ha, hau, hcn, hwn, hlw, hst]

/-- Oracle in which `load_wallet` fails with RPC code `-18` and everything
else succeeds. -/
def oracle18 : Oracle := { okOracle with loadWallet := .error (.jsonRpcCode (-18)) }

/-- C2 witness: the amended statement instantiated at concrete credentials and
the code `-18` oracle. -/
theorem C2_settxfee_on_recovery_paths_witness :
    (oracle18.loadWallet = .ok () → connect credState oracle18 = (.ok (), [.loadWalletCall])) ∧
    (oracle18.loadWallet = .error (.jsonRpcCode (-18)) → oracle18.createWallet = .ok () →
      RpcCall.settxfeeCall ∈ (connect credState oracle18).2 ∧
        ((connect credState oracle18).1 = .ok () ↔ oracle18.settxfee = .ok ())) ∧
    (oracle18.loadWallet = .error (.jsonRpcCode (-35)) →
      RpcCall.settxfeeCall ∈ (connect credState oracle18).2 ∧
        ((connect credState oracle18).1 = .ok () ↔ oracle18.settxfee = .ok ())) :=
  C2_settxfee_on_recovery_paths credState oracle18 rfl rfl rfl rfl

/-- C3 counterexample: `disconnect` does not clear the credentials in full:
the address string survives it (only the `AuthMethod` is dropped). -/
theorem C3_address_survives_disconnect :
    (disconnect credState).1.address = some "127.0.0.1:18443" ∧
    (disconnect credState).1.address ≠ none := by
  exact ⟨rfl, by simp [disconnect, credState]⟩

/-- C3 amended: `disconnect` unconditionally clears both RPC handles and the
`AuthMethod` while leaving the stored address string untouched, emits
`Connected(false)`, and is idempotent: a second call leaves the state fixed
and emits the same event. -/
theorem C3_disconnect_clears_handles_and_auth (s : BitcoinD) :
    (disconnect s).1.client = false ∧
    (disconnect s).1.wallet_client = false ∧
    (disconnect s).1.auth = none ∧
    (disconnect s).1.address = s.address ∧
    (disconnect s).2 = [BitcoinMessage.connected false] ∧
    disconnect (disconnect s).1 = disconnect s := by
  refine ⟨rfl, rfl, rfl, rfl, rfl, ?_⟩
  simp [disconnect]

/-- C3 witness: the amended statement instantiated at the concrete
credentialed state. -/
theorem C3_disconnect_clears_handles_and_auth_witness :
    (disconnect credState).1.client = false ∧
    (disconnect credState).1.wallet_client = false ∧
    (disconnect credState).1.auth = none ∧
    (disconnect credState).1.address = credState.address ∧
    (disconnect credState).2 = [BitcoinMessage.connected false] ∧
    disconnect (disconnect credState).1 = disconnect credState :=
  C3_disconnect_clears_handles_and_auth credState

/-- Observable actions of a handler, in source order: gate transitions, RPC
calls, messages sent to the GUI channel, descriptor-resolver invocations (with
the derivation index used), the `update_data` status refresh, spawning the
miner worker, and posting the cooperative stop signal to it. -/
inductive Action
  | setGate
  | clearGate
  | rpcA (c : RpcCall)
  | emit (m : BitcoinMessage)
  | derive (index : ℕ)
  | refreshData
  | spawnMiner
  | stopSignal
  deriving DecidableEq, Repr

/-- Model of `BitcoinD::get_block_height` (node client, `get_blockchain_info`). -/
def get_block_height (s : BitcoinD) (o : Oracle) : Except Error ℕ × List RpcCall :=
  if s.client then
    match o.getBlockchainInfoBlocks with
    | .ok n => (.ok n, [.getBlockchainInfoCall])
    | .error e => (.error (.rpc e), [.getBlockchainInfoCall])
  else (.error .notConnected, [])

/-- Model of `BitcoinD::get_balance` (wallet client). -/
def get_balance (s : BitcoinD) (o : Oracle) : Except Error ℕ × List RpcCall :=
  if s.wallet_client then
    match o.getBalanceRpc with
    | .ok n => (.ok n, [.getBalanceCall])
    | .error e => (.error (.rpc e), [.getBalanceCall])
  else (.error .notConnected, [])

/-- Model of `BitcoinD::update_data`: refresh tip height and balance, emitting
a status event for each value obtained and swallowing errors. -/
def update_data (s : BitcoinD) (o : Oracle) : List Action :=
  Action.refreshData ::
    ((match get_block_height s o with
      | (.ok n, calls) => calls.map Action.rpcA ++ [Action.emit (.updateBlockchainTip n)]
      | (.error _, calls) => calls.map Action.rpcA) ++
     (match get_balance s o with
      | (.ok b, calls) => calls.map Action.rpcA ++ [Action.emit (.updateBalance b)]
      | (.error _, calls) => calls.map Action.rpcA))

/-- Model of `BitcoinD::generate_to_address`. -/
def generate_to_address (s : BitcoinD) (blocks : ℕ) (address : String) (o : Oracle) :
    Except Error Unit × List Action :=
  if s.client then
    match o.generateToAddressRpc blocks address with
    | .ok _ => (.ok (), [.rpcA (.generateCall blocks address)])
    | .error e => (.error (.rpc e), [.rpcA (.generateCall blocks address)])
  else (.error .notConnected, [])

/-- Model of `BitcoinD::generate`: one throwaway address, then
`generate_to_address`. -/
def generate (s : BitcoinD) (blocks : ℕ) (o : Oracle) : Except Error Unit × List Action :=
  generate_to_address s blocks o.freshAddress o

/-- Model of `BitcoinD::get_new_address` (wallet client RPC). -/
def get_new_address (s : BitcoinD) (o : Oracle) : Except Error String × List Action :=
  if s.wallet_client then
    match o.getNewAddressRpc with
    | .ok a => (.ok a, [.rpcA .getNewAddressCall])
    | .error e => (.error (.rpc e), [.rpcA .getNewAddressCall])
  else (.error .notConnected, [])

/-- Model of `BitcoinD::generate_to_self`: fresh wallet address, then
`generate_to_address`. -/
def generate_to_self (s : BitcoinD) (blocks : ℕ) (o : Oracle) :
    Except Error Unit × List Action :=
  if s.wallet_client then
    match o.getNewAddressRpc with
    | .ok a =>
      match generate_to_address s blocks a o with
      | (r, acts) => (r, .rpcA .getNewAddressCall :: acts)
    | .error e => (.error (.rpc e), [.rpcA .getNewAddressCall])
  else (.error .notConnected, [])

/-- Model of `BitcoinD::address_from_descriptor`: the miniscript pipeline
(single-descriptor split, receive-path selection, derivation, address
computation) is the oracle's `singleDerive`; its two failure stages map to the
source's `ParseDescriptor` and `DeriveDescriptor` errors. -/
def address_from_descriptor (o : Oracle) (descriptor : String) (index : ℕ) :
    Except Error String :=
  match o.singleDerive descriptor index with
  | .ok a => .ok a
  | .error f => .error f.toError

/-- Loop body of `BitcoinD::generate_to_descriptor` over the index range. -/
def gen_desc_loop (s : BitcoinD) (o : Oracle) (descriptor : String) :
    List ℕ → Except Error Unit × List Action
  | [] => (.ok (), [])
  | i :: rest =>
    match address_from_descriptor o descriptor i with
    | .error e => (.error e, [.derive i])
    | .ok addr =>
      match generate_to_address s 1 addr o with
      | (.error e, acts) => (.error e, .derive i :: acts)
      | (.ok _, acts) =>
        match gen_desc_loop s o descriptor rest with
        | (r, acts2) =>
          (r, .derive i :: acts ++ [.emit .incrementGenerateDescriptorIndex] ++ acts2)

/-- Model of `BitcoinD::generate_to_descriptor`: the `u32` sum
`start_index + blocks` wraps, the descriptor text is parsed once
(`ParseDescriptor` on failure), then one block is generated per derived
address. -/
def generate_to_descriptor (s : BitcoinD) (p : GenerateToDescriptor) (o : Oracle) :
    Except Error Unit × List Action :=
  if o.parseOk p.descriptor then
    gen_desc_loop s o p.descriptor
      (List.range' p.start_index ((p.start_index + p.blocks) % U32 - p.start_index))
  else (.error .parseDescriptor, [])

/-- Model of `BitcoinD::random_amount`: `rng.gen_range(lo..hi)` panics when
the range is empty, which `none` represents; otherwise the oracle supplies
the draw. -/
def random_amount (o : Oracle) (lo hi : ℕ) : Option ℕ :=
  if lo < hi then some (o.drawRange lo hi) else none

/-- Model of `BitcoinD::send_to_address` (wallet client RPC). -/
def send_to_address (s : BitcoinD) (address : String) (amount : ℕ) (o : Oracle) :
    Except Error Unit × List Action :=
  if s.wallet_client then
    match o.sendToAddressRpc address amount with
    | .ok _ => (.ok (), [.rpcA (.sendCall address amount)])
    | .error e => (.error (.rpc e), [.rpcA (.sendCall address amount)])
  else (.error .notConnected, [])

/-- Loop body of `BitcoinD::send_to_descriptor`: per index, draw the amount
(panic on an empty amount range), derive the address, send, and emit the
index-increment event. -/
def send_desc_loop (s : BitcoinD) (o : Oracle) (lo hi : ℕ) (descriptor : String) :
    List ℕ → Option (Except Error Unit × List Action)
  | [] => some (.ok (), [])
  | i :: rest =>
    match random_amount o lo hi with
    | none => none
    | some amt =>
      match address_from_descriptor o descriptor i with
      | .error e => some (.error e, [.derive i])
      | .ok addr =>
        match send_to_address s addr amt o with
        | (.error e, acts) => some (.error e, .derive i :: acts)
        | (.ok _, acts) =>
          match send_desc_loop s o lo hi descriptor rest with
          | none => none
          | some (r, acts2) =>
            some (r, .derive i :: acts ++ [.emit .incrementSendDescriptorIndex] ++ acts2)

/-- Model of `BitcoinD::send_to_descriptor`: the `u32` sum
`start_index + count` wraps, the descriptor parse failure maps to
`DeriveDescriptor` (as in the source), then the loop runs. -/
def send_to_descriptor (s : BitcoinD) (p : SendToDescriptor) (o : Oracle) :
    Option (Except Error Unit × List Action) :=
  if o.parseOk p.descriptor then
    send_desc_loop s o p.amount_min p.amount_max p.descriptor
      (List.range' p.start_index ((p.start_index + p.count) % U32 - p.start_index))
  else some (.error .deriveDescriptor, [])

/-- Loop body of `BitcoinD::maybe_send_every_block`: per index, draw the
amount (panic on an empty amount range), re-parse the descriptor
(`ParseDescriptor` on failure, as in the source), derive and send. -/
def seb_loop (s : BitcoinD) (o : Oracle) (lo hi : ℕ) (descriptor : String) :
    List ℕ → Option (Except Error Unit × List Action)
  | [] => some (.ok (), [])
  | i :: rest =>
    match random_amount o lo hi with
    | none => none
    | some amt =>
      if o.parseOk descriptor then
        match address_from_descriptor o descriptor i with
        | .error e => some (.error e, [.derive i])
        | .ok addr =>
          match send_to_address s addr amt o with
          | (.error e, acts) => some (.error e, .derive i :: acts)
          | (.ok _, acts) =>
            match seb_loop s o lo hi descriptor rest with
            | none => none
            | some (r, acts2) => some (r, .derive i :: acts ++ acts2)
      else some (.error .parseDescriptor, [])

/-- Cursor of a pacing configuration: `actual_index` if set, else
`start_index`. -/
def cursor (p : SendEveryBlock) : ℕ := p.actual_index.getD p.start_index

/-- Per-block transaction count drawn for a configuration. -/
def txCount (p : SendEveryBlock) (o : Oracle) : ℕ :=
  get_random_tx_count p.count p.blocks o.draw

/-- Configuration after one `maybe_send_every_block` pass: the cursor is set
to `start + tx_count` (`u32` wrapping), before any send is attempted. -/
def seb_advanced (p : SendEveryBlock) (o : Oracle) : SendEveryBlock :=
  { p with actual_index := some ((cursor p + txCount p o) % U32) }

/-- Derivation indices visited by one `maybe_send_every_block` pass:
`start..end` with the wrapped end index. -/
def seb_indices (p : SendEveryBlock) (o : Oracle) : List ℕ :=
  List.range' (cursor p) ((cursor p + txCount p o) % U32 - cursor p)

/-- Model of `BitcoinD::maybe_send_every_block`: when a pacing configuration
is present, compute the random per-block count, advance the cursor by the
full count before the send loop runs (the `u32` end index wraps), then send to
the sequential derived addresses. -/
def maybe_send_every_block (s : BitcoinD) (o : Oracle) :
    Option (BitcoinD × Except Error Unit × List Action) :=
  match s.send_every_block with
  | none => some (s, .ok (), [])
  | some p =>
    match seb_loop { s with send_every_block := some (seb_advanced p o) } o
        p.amount_min p.amount_max p.descriptor (seb_indices p o) with
    | none => none
    | some (r, acts) =>
      some ({ s with send_every_block := some (seb_advanced p o) }, r, acts)

/-- Model of `BitcoinD::handle_connect`. -/
def handle_connect (s : BitcoinD) (o : Oracle) : BitcoinD × List Action :=
  if is_connected s = false then
    match connect s o with
    | (.ok _, calls) =>
      ({ s with client := true, wallet_client := true },
       calls.map .rpcA ++ [.emit (.connected true)])
    | (.error _, calls) =>
      (s, calls.map .rpcA ++ [.emit (.sendMessage "Fail to connect"), .emit (.connected false)])
  else
    (s, [.emit (.sendMessage "Already connected!"), .emit (.connected true)])

/-- Model of `BitcoinD::start_auto_block`: only when connected, register the
cancellation sender, then open the worker's own RPC connection via
`self.connect()?` (whose failure propagates with the sender left registered),
and finally spawn the miner worker.  When disconnected, the body is skipped
and `Ok(())` is returned. -/
def start_auto_block (s : BitcoinD) (o : Oracle) :
    BitcoinD × Except Error Unit × List Action :=
  if is_connected s then
    let s1 : BitcoinD := { s with auto_block_sender := true }
    match connect s1 o with
    | (.error e, calls) => (s1, .error e, calls.map .rpcA)
    | (.ok _, calls) => (s1, .ok (), calls.map .rpcA ++ [.spawnMiner])
  else (s, .ok (), [])

/-- Model of `BitcoinD::stop_auto_block`: post one stop signal if a sender is
registered, otherwise do nothing; never touches the state. -/
def stop_auto_block (s : BitcoinD) : List Action :=
  if s.auto_block_sender then [.stopSignal] else []

/-- Response events after a generate-class handler body, in source order. -/
def genResp : Except Error Unit → List Action
  | .ok _ => [.emit (.generateResponse true)]
  | .error _ => [.emit (.sendMessage "generate error"), .emit (.generateResponse false)]

/-- Response events after a send handler body, in source order. -/
def sendResp : Except Error Unit → List Action
  | .ok _ => [.emit (.sendResponse true)]
  | .error _ => [.emit (.sendMessage "send error"), .emit (.sendResponse false)]

/-- Shared shape of the four generate-class arms of `handle_message`: set the
gate, run the body, emit the responses, refresh status, clear the gate.  The
bodies never read the gate, so passing their result computed on `s` matches
the source, and the net state is `s` with the gate clear. -/
def gen_gate (s : BitcoinD) (o : Oracle) (body : Except Error Unit × List Action) :
    BitcoinD × List Action :=
  ({ s with mining_busy := false },
   Action.setGate :: (body.2 ++ genResp body.1 ++ update_data s o) ++ [Action.clearGate])

/-- Model of `BitcoinD::handle_message`, matching on the pair of the message
and the mining gate exactly as the source does; `none` models a panic escaping
the handler.  The final catch-all covers both generate-class commands arriving
while the gate is set and GUI-direction messages, which are only logged. -/
def handle_message (s : BitcoinD) (msg : BitcoinMessage) (o : Oracle) :
    Option (BitcoinD × List Action) :=
  match msg, s.mining_busy with
  | .setCredentials a au, _ => some ({ s with address := some a, auth := some au }, [])
  | .connect, _ =>
    match handle_connect s o with
    | (s1, acts) => some (s1, acts ++ update_data s1 o)
  | .disconnect, _ =>
    if is_connected s then
      match disconnect s with
      | (s1, evs) => some (s1, evs.map .emit)
    else some (s, [])
  | .getNewAddress, _ =>
    match get_new_address s o with
    | (.ok a, acts) => some (s, acts ++ [.emit (.newAddress a)])
    | (.error _, acts) => some (s, acts ++ [.emit (.sendMessage "Fail to get new address")])
  | .generate blocks, false => some (gen_gate s o (generate s blocks o))
  | .generateToSelf blocks, false => some (gen_gate s o (generate_to_self s blocks o))
  | .generateToAddress blocks address, false =>
    some (gen_gate s o (generate_to_address s blocks address o))
  | .generateToDescriptor p, false => some (gen_gate s o (generate_to_descriptor s p o))
  | .sendToAddress amount address, _ =>
    match send_to_address s address amount o with
    | (r, acts) => some (s, acts ++ sendResp r)
  | .sendToDescriptor p, _ =>
    match send_to_descriptor s p o with
    | none => none
    | some (r, acts) => some (s, acts ++ sendResp r)
  | .blockMined, _ =>
    match maybe_send_every_block s o with
    | none => none
    | some (s1, r, acts) =>
      let errActs : List Action :=
        match r with
        | .ok _ => []
        | .error _ => [.emit (.sendMessage "maybe_send_every_block error")]
      some (s1, acts ++ errActs ++ update_data s1 o)
  | .minerStopped, _ =>
    some ({ s with auto_block_sender := false }, [.emit .minerStopped])
  | .batchSent, _ => some (s, update_data s o)
  | .enableSendEveryBlock p, _ => some ({ s with send_every_block := some p }, [])
  | .disableSendEveryBlock, _ => some ({ s with send_every_block := none }, [])
  | .startAutoBlock _, _ =>
    match start_auto_block s o with
    | (s1, .ok _, acts) => some (s1, acts)
    | (s1, .error _, acts) =>
      some (s1, acts ++ [.emit .minerStopped, .emit (.sendMessage "Fail to start autoblock")])
  | .stopAutoBlock, _ => some (s, stop_auto_block s)
  | _, _ => some (s, [])

/-- Final state of a handled message, when no panic occurred. -/
def stateAfter (s : BitcoinD) (msg : BitcoinMessage) (o : Oracle) : Option BitcoinD :=
  (handle_message s msg o).map (·.1)

/-- Connected state holding credentials. -/
def connState : BitcoinD := { credState with client := true, wallet_client := true }

/-- Oracle in which `load_wallet` fails with an unrecoverable RPC code. -/
def failOracle : Oracle := { okOracle with loadWallet := .error (.jsonRpcCode (-4)) }

/-- C4 counterexample: invoking `start_auto_block` while disconnected returns
`Ok(())` rather than an error, and the dispatcher arm emits no event at all:
the connection requirement fails silently instead of being reported. -/
theorem C4_disconnected_start_silently_succeeds :
    (start_auto_block credState okOracle).2.1 = .ok () ∧
    Action.spawnMiner ∉ (start_auto_block credState okOracle).2.2 ∧
    handle_message credState (.startAutoBlock 500) okOracle = some (credState, []) := by
  refine ⟨rfl, ?_, rfl⟩
  decide

/-- C4 amended: when invoked while no connection is established,
`start_auto_block` is a silent no-op: it returns success, changes no state,
registers no cancellation sender, spawns no miner worker, and the
`StartAutoBlock` dispatcher arm emits no event. -/
theorem C4_disconnected_start_is_noop (s : BitcoinD) (o : Oracle) (d : ℕ)
    (h : s.client = false) :
    start_auto_block s o = (s, .ok (), []) ∧
    Action.spawnMiner ∉ (start_auto_block s o).2.2 ∧
    (start_auto_block s o).1.auto_block_sender = s.auto_block_sender ∧
    handle_message s (.startAutoBlock d) o = some (s, []) := by
  have h1 : start_auto_block s o = (s, .ok (), []) := by
    simp [start_auto_block, is_connected, h]
  refine ⟨h1, by simp [h1], by simp [h1], ?_⟩
  simp [handle_message, h1]

/-- C4 witness: the amended statement instantiated at the disconnected
credentialed state. -/
theorem C4_disconnected_start_is_noop_witness :
    start_auto_block credState okOracle = (credState, .ok (), []) ∧
    Action.spawnMiner ∉ (start_auto_block credState okOracle).2.2 ∧
    (start_auto_block credState okOracle).1.auto_block_sender = credState.auto_block_sender ∧
    handle_message credState (.startAutoBlock 500) okOracle = some (credState, []) :=
  C4_disconnected_start_is_noop credState okOracle 500 rfl

/-- C5 counterexample: starting auto-block while connected registers the
cancellation sender before the worker's own connection is attempted; when that
`connect` fails, `start_auto_block` errors out with no worker spawned while
the sender stays registered, and the dispatcher's failure arm does not clear
it either — violating the invariant that the sender is present only while a
worker is alive. -/
theorem C5_sender_dangles_after_failed_start :
    (start_auto_block connState failOracle).1.auto_block_sender = true ∧
    Action.spawnMiner ∉ (start_auto_block connState failOracle).2.2 ∧
    (start_auto_block connState failOracle).2.1 = .error (.rpc (.jsonRpcCode (-4))) ∧
    stateAfter connState (.startAutoBlock 500) failOracle =
      some { connState with auto_block_sender := true } := by
  refine ⟨rfl, ?_, rfl, rfl⟩
  decide

/-- C5 amended: the cancellation sender is registered as soon as
`start_auto_block` runs while connected — before the worker's connection is
attempted — and the worker is spawned exactly when that connection succeeds,
so a failed start leaves the sender registered with no worker alive; the
sender is cleared (and the event forwarded) exactly on receipt of the
`MinerStopped` loopback confirmation. -/
theorem C5_sender_lifecycle (s t : BitcoinD) (o o2 : Oracle)
    (hc : s.client = true) :
    (start_auto_block s o).1.auto_block_sender = true ∧
    (Action.spawnMiner ∈ (start_auto_block s o).2.2 ↔
      (connect { s with auto_block_sender := true } o).1 = .ok ()) ∧
    handle_message t .minerStopped o2 =
      some ({ t with auto_block_sender := false }, [.emit .minerStopped]) := by
  refine ⟨?_, ?_, rfl⟩
  · rcases hcon : connect { s with auto_block_sender := true } o with ⟨r, calls⟩
    simp only [hc] at hcon
    cases r with
    | error e => simp [start_auto_block, is_connected, hc, hcon]
    | ok v =>
      cases v
      simp [start_auto_block, is_connected, hc, hcon]
  · rcases hcon : connect { s with auto_block_sender := true } o with ⟨r, calls⟩
    simp only [hc] at hcon
    cases r with
    | error e => simp [start_auto_block, is_connected, hc, hcon]
    | ok v =>
      cases v
      simp [start_auto_block, is_connected, hc, hcon]

/-- C5 witness: the amended statement instantiated at the connected state and
the failing-bootstrap oracle. -/
theorem C5_sender_lifecycle_witness :
    (start_auto_block connState failOracle).1.auto_block_sender = true ∧
    (Action.spawnMiner ∈ (start_auto_block connState failOracle).2.2 ↔
      (connect { connState with auto_block_sender := true } failOracle).1 = .ok ()) ∧
    handle_message connState .minerStopped okOracle =
      some ({ connState with auto_block_sender := false }, [.emit .minerStopped]) :=
  C5_sender_lifecycle connState connState failOracle okOracle rfl

lemma send_desc_loop_ne_none (s : BitcoinD) (o : Oracle) (lo hi : ℕ) (d : String)
    (h : lo < hi) : ∀ l, send_desc_loop s o lo hi d l ≠ none := by
  intro l
  induction l with
  | nil => simp [send_desc_loop]
  | cons i rest ih =>
    simp only [send_desc_loop, random_amount, if_pos h]
    cases address_from_descriptor o d i with
    | error e => simp
    | ok addr =>
      rcases hsend : send_to_address s addr (o.drawRange lo hi) o with ⟨r, acts⟩
      cases r with
      | error e => simp [hsend]
      | ok v =>
        cases v
        rcases hrec : send_desc_loop s o lo hi d rest with _ | ⟨r2, acts2⟩
        · exact absurd hrec ih
        · simp [hsend, hrec]

lemma seb_loop_ne_none (s : BitcoinD) (o : Oracle) (lo hi : ℕ) (d : String)
    (h : lo < hi) : ∀ l, seb_loop s o lo hi d l ≠ none := by
  intro l
  induction l with
  | nil => simp [seb_loop]
  | cons i rest ih =>
    simp only [seb_loop, random_amount, if_pos h]
    cases hp : o.parseOk d with
    | false => simp
    | true =>
      simp only [if_pos hp]
      cases address_from_descriptor o d i with
      | error e => simp
      | ok addr =>
        rcases hsend : send_to_address s addr (o.drawRange lo hi) o with ⟨r, acts⟩
        cases r with
        | error e => simp [hsend]
        | ok v =>
          cases v
          rcases hrec : seb_loop s o lo hi d rest with _ | ⟨r2, acts2⟩
          · exact absurd hrec ih
          · simp [hsend, hrec]

lemma send_to_descriptor_ne_none (s : BitcoinD) (p : SendToDescriptor) (o : Oracle)
    (h : p.amount_min < p.amount_max) : send_to_descriptor s p o ≠ none := by
  unfold send_to_descriptor
  cases hp : o.parseOk p.descriptor with
  | false => simp
  | true =>
    simp only [if_pos hp]
    exact send_desc_loop_ne_none s o _ _ _ h _

lemma maybe_send_every_block_ne_none (s : BitcoinD) (o : Oracle)
    (hseb : ∀ p, s.send_every_block = some p → p.amount_min < p.amount_max) :
    maybe_send_every_block s o ≠ none := by
  unfold maybe_send_every_block
  cases hs : s.send_every_block with
  | none => simp
  | some p =>
    have hlt := hseb p hs
    rcases hloop : seb_loop { s with send_every_block := some (seb_advanced p o) } o
        p.amount_min p.amount_max p.descriptor (seb_indices p o) with _ | ⟨r, acts⟩
    · exact absurd hloop (seb_loop_ne_none _ o _ _ _ hlt _)
    · simp [hloop]

/-- Parameters with a non-empty amount range. -/
def okSend : SendToDescriptor :=
  { count := 1, amount_min := 1000, amount_max := 2000,
    descriptor := "wpkh(xpub/0/*)", start_index := 0 }

/-- Parameters with an empty amount range. -/
def emptyRangeSend : SendToDescriptor :=
  { count := 1, amount_min := 1000, amount_max := 1000,
    descriptor := "wpkh(xpub/0/*)", start_index := 0 }

/-- C6 counterexample: handling `SendToDescriptor` with
`amount_min = amount_max` (and `count ≥ 1`) reaches
`rng.gen_range(min..max)` on an empty range, which panics and aborts the
handler — modelled by the `none` outcome — contradicting the claim that no
command handler ever panics. -/
theorem C6_empty_amount_range_panics :
    send_to_descriptor connState emptyRangeSend okOracle = none ∧
    handle_message connState (.sendToDescriptor emptyRangeSend) okOracle = none := by
  exact ⟨rfl, rfl⟩

/-- C6 amended: command handlers never panic except through the empty-range
amount draw: for every state, oracle and message such that any
`SendToDescriptor` payload and any enabled pacing configuration have
`amount_min < amount_max`, `handle_message` completes without a panic — in
particular index arithmetic such as `start_index + count` beyond `u32::MAX`
wraps (release semantics) rather than aborting. -/
theorem C6_handlers_no_panic (s : BitcoinD) (o : Oracle) (msg : BitcoinMessage)
    (hmsg : ∀ p, msg = .sendToDescriptor p → p.amount_min < p.amount_max)
    (hseb : ∀ p, s.send_every_block = some p → p.amount_min < p.amount_max) :
    handle_message s msg o ≠ none := by
  cases msg with
  | setCredentials a au => simp [handle_message]
  | connect =>
    rcases h : handle_connect s o with ⟨s1, acts⟩
    simp [handle_message, h]
  | disconnect =>
    cases hc : is_connected s <;> simp [handle_message, hc, disconnect]
  | getNewAddress =>
    rcases h : get_new_address s o with ⟨r, acts⟩
    cases r <;> simp [handle_message, h]
  | generate blocks =>
    cases hb : s.mining_busy <;> simp [handle_message, hb]
  | generateToSelf blocks =>
    cases hb : s.mining_busy <;> simp [handle_message, hb]
  | generateToAddress blocks address =>
    cases hb : s.mining_busy <;> simp [handle_message, hb]
  | generateToDescriptor p =>
    cases hb : s.mining_busy <;> simp [handle_message, hb]
  | sendToAddress amount address =>
    rcases h : send_to_address s address amount o with ⟨r, acts⟩
    simp [handle_message, h]
  | sendToDescriptor p =>
    have hlt := hmsg p rfl
    rcases h : send_to_descriptor s p o with _ | ⟨r, acts⟩
    · exact absurd h (send_to_descriptor_ne_none s p o hlt)
    · simp [handle_message, h]
  | blockMined =>
    rcases h : maybe_send_every_block s o with _ | ⟨s1, r, acts⟩
    · exact absurd h (maybe_send_every_block_ne_none s o hseb)
    · cases r <;> simp [handle_message, h]
  | minerStopped => simp [handle_message]
  | batchSent => simp [handle_message]
  | enableSendEveryBlock p => simp [handle_message]
  | disableSendEveryBlock => simp [handle_message]
  | startAutoBlock d =>
    rcases h : start_auto_block s o with ⟨s1, r, acts⟩
    cases r <;> simp [handle_message, h]
  | stopAutoBlock => simp [handle_message]
  | updateBlockchainTip n => simp [handle_message]
  | updateBalance n => simp [handle_message]
  | generateResponse b => simp [handle_message]
  | sendResponse b => simp [handle_message]
  | sendMessage t => simp [handle_message]
  | connected b => simp [handle_message]
  | newAddress a => simp [handle_message]
  | incrementSendDescriptorIndex => simp [handle_message]
  | incrementGenerateDescriptorIndex => simp [handle_message]
  | failMineBlock r => simp [handle_message]

/-- C6 witness: the amended statement instantiated at the connected state, the
all-ok oracle and a `SendToDescriptor` command with a non-empty amount
range. -/
theorem C6_handlers_no_panic_witness :
    (∀ p, BitcoinMessage.sendToDescriptor okSend = .sendToDescriptor p →
      p.amount_min < p.amount_max) ∧
    (∀ p, connState.send_every_block = some p → p.amount_min < p.amount_max) ∧
    handle_message connState (.sendToDescriptor okSend) okOracle ≠ none := by
  have h1 : ∀ p, BitcoinMessage.sendToDescriptor okSend = .sendToDescriptor p →
      p.amount_min < p.amount_max := by
    intro p h
    injection h with h2
    rw [← h2]
    decide
  have h2 : ∀ p, connState.send_every_block = some p → p.amount_min < p.amount_max := by
    intro p h
    simp [connState, credState] at h
  exact ⟨h1, h2, C6_handlers_no_panic connState okOracle (.sendToDescriptor okSend) h1 h2⟩

/-- Sum of the per-block counts computed for a fixed target rate
`cnt` per `blks` over a list of per-block oracles. -/
def sumCounts (cnt blks : ℕ) (os : List Oracle) : ℕ :=
  (os.map fun o => get_random_tx_count cnt blks o.draw).sum

/-- Process one `BlockMined` loopback event per oracle in sequence, as the
dispatcher does while the auto-block miner feeds its mailbox. -/
def run_blocks (s : BitcoinD) : List Oracle → Option BitcoinD
  | [] => some s
  | o :: os =>
    match handle_message s .blockMined o with
    | none => none
    | some (s1, _) => run_blocks s1 os

lemma cursorAdvanced (p : SendEveryBlock) (o : Oracle) :
    cursor (seb_advanced p o) = (cursor p + txCount p o) % U32 := by
  simp [cursor, seb_advanced]

lemma seb_advanced_min (p : SendEveryBlock) (o : Oracle) :
    (seb_advanced p o).amount_min = p.amount_min := rfl

lemma seb_advanced_max (p : SendEveryBlock) (o : Oracle) :
    (seb_advanced p o).amount_max = p.amount_max := rfl

lemma seb_advanced_descr (p : SendEveryBlock) (o : Oracle) :
    (seb_advanced p o).descriptor = p.descriptor := rfl

lemma seb_advanced_count (p : SendEveryBlock) (o : Oracle) :
    (seb_advanced p o).count = p.count ∧ (seb_advanced p o).blocks = p.blocks := by
  simp [seb_advanced]

lemma maybe_send_state (s : BitcoinD) (p : SendEveryBlock) (o : Oracle)
    (x : BitcoinD × Except Error Unit × List Action)
    (hs : s.send_every_block = some p)
    (h : maybe_send_every_block s o = some x) :
    x.1 = { s with send_every_block := some (seb_advanced p o) } := by
  simp only [maybe_send_every_block, hs] at h
  rcases hloop : seb_loop { s with send_every_block := some (seb_advanced p o) } o
      p.amount_min p.amount_max p.descriptor (seb_indices p o) with _ | ⟨r, acts2⟩ <;>
    simp only [hloop] at h
  · exact absurd h (by simp)
  · have h2 := Option.some.inj h
    rw [← h2]

lemma blockMined_state (s : BitcoinD) (o : Oracle) (s1 : BitcoinD) (acts : List Action)
    (h : handle_message s .blockMined o = some (s1, acts)) :
    ∃ x, maybe_send_every_block s o = some x ∧ s1 = x.1 := by
  simp only [handle_message] at h
  rcases hm : maybe_send_every_block s o with _ | ⟨t, r, acts2⟩ <;> simp only [hm] at h
  · exact absurd h (by simp)
  · refine ⟨(t, r, acts2), rfl, ?_⟩
    cases r <;> simp only [Option.some.injEq, Prod.mk.injEq] at h <;> exact h.1.symm

lemma run_blocks_cursor (cnt blks : ℕ) (os : List Oracle) :
    ∀ (s s' : BitcoinD) (q : SendEveryBlock),
      s.send_every_block = some q → q.count = cnt → q.blocks = blks →
      run_blocks s os = some s' →
      cursor q + sumCounts cnt blks os < U32 →
      ∃ q', s'.send_every_block = some q' ∧ q'.count = cnt ∧ q'.blocks = blks ∧
        cursor q' = cursor q + sumCounts cnt blks os ∧
        (os = [] → q' = q) ∧
        (os ≠ [] → q'.actual_index = some (cursor q + sumCounts cnt blks os)) := by
  induction os with
  | nil =>
    intro s s' q hs hc hb hrun _
    have hss : s = s' := by
      simpa [run_blocks] using hrun
    refine ⟨q, ?_, hc, hb, ?_, ?_, ?_⟩
    · rw [← hss]
      exact hs
    · simp [sumCounts]
    · intro _
      rfl
    · intro hne
      exact absurd rfl hne
  | cons o os ih =>
    intro s s' q hs hc hb hrun hov
    have hk : txCount q o = get_random_tx_count cnt blks o.draw := by
      simp [txCount, hc, hb]
    have hsum : sumCounts cnt blks (o :: os) =
        get_random_tx_count cnt blks o.draw + sumCounts cnt blks os := by
      simp [sumCounts]
    rw [hsum] at hov
    unfold run_blocks at hrun
    rcases hstep : handle_message s .blockMined o with _ | ⟨s1, acts⟩ <;>
      simp only [hstep] at hrun
    · exact absurd hrun (by simp)
    · obtain ⟨x, hx, hs1⟩ := blockMined_state s o s1 acts hstep
      have hs1' : s1 = { s with send_every_block := some (seb_advanced q o) } := by
        rw [hs1, maybe_send_state s q o x hs hx]
      have hnowrap : cursor q + txCount q o < U32 := by
        rw [hk]; omega
      have hcur1 : cursor (seb_advanced q o) = cursor q + get_random_tx_count cnt blks o.draw := by
        rw [cursorAdvanced, Nat.mod_eq_of_lt hnowrap, hk]
      have hseb1 : s1.send_every_block = some (seb_advanced q o) := by
        rw [hs1']
      obtain ⟨q', hq's, hq'c, hq'b, hq'cur, h5, h6⟩ :=
        ih s1 s' (seb_advanced q o) hseb1
          (by rw [(seb_advanced_count q o).1, hc])
          (by rw [(seb_advanced_count q o).2, hb]) hrun
          (by rw [hcur1]; omega)
      refine ⟨q', hq's, hq'c, hq'b, ?_, ?_, ?_⟩
      · rw [hq'cur, hcur1, hsum]
        omega
      · intro hne
        exact absurd hne (by simp)
      · intro _
        rcases Classical.em (os = []) with hos | hos
        · rw [h5 hos, hos]
          simp only [seb_advanced, sumCounts, List.map_cons, List.map_nil, List.sum_cons,
            List.sum_nil]
          rw [Nat.mod_eq_of_lt hnowrap, hk]
          congr 1
        · rw [h6 hos, hcur1, hsum]
          congr 1
          omega

lemma disable_state (s : BitcoinD) (o : Oracle) :
    stateAfter s .disableSendEveryBlock o = some { s with send_every_block := none } := rfl

lemma enable_state (s : BitcoinD) (p : SendEveryBlock) (o : Oracle) :
    stateAfter s (.enableSendEveryBlock p) o = some { s with send_every_block := some p } := rfl

/-- C7: cursor accounting for the send-pacing engine.  Starting from a fresh
configuration `p` (no `actual_index`) with `start_index = s`, processing `N`
`BlockMined` events leaves the cursor at `s + Σ kᵢ` where each `kᵢ` is the
per-block count computed from that block's draw (and `actual_index` is set to
that value for `N ≥ 1`); one `BlockMined` step never decreases the cursor of
an enabled configuration; and disabling then re-enabling with the same
configuration restarts the cursor at `start_index`, discarding prior
progress. -/
theorem C7_cursor_accounting
    (p : SendEveryBlock) (os : List Oracle) (s s' t t' u u1 u2 : BitcoinD)
    (q : SendEveryBlock) (o o1 o2 : Oracle)
    (hp : p.actual_index = none) (hs : s.send_every_block = some p)
    (hrun : run_blocks s os = some s')
    (hov : p.start_index + sumCounts p.count p.blocks os < U32)
    (htq : t.send_every_block = some q)
    (htov : cursor q + txCount q o < U32)
    (hstep : stateAfter t .blockMined o = some t')
    (hdis : stateAfter u .disableSendEveryBlock o1 = some u1)
    (hena : stateAfter u1 (.enableSendEveryBlock p) o2 = some u2) :
    (∃ q', s'.send_every_block = some q' ∧
        cursor q' = p.start_index + sumCounts p.count p.blocks os ∧
        (os ≠ [] → q'.actual_index = some (p.start_index + sumCounts p.count p.blocks os))) ∧
    (∃ q', t'.send_every_block = some q' ∧ cursor q ≤ cursor q') ∧
    u2.send_every_block = some p ∧ cursor p = p.start_index := by
  have hcp : cursor p = p.start_index := by simp [cursor, hp]
  refine ⟨?_, ?_, ?_, hcp⟩
  · obtain ⟨q', h1, _, _, h4, _, h6⟩ :=
      run_blocks_cursor p.count p.blocks os s s' p hs rfl rfl hrun (by rw [hcp]; exact hov)
    exact ⟨q', h1, by rw [h4, hcp], fun hne => by rw [h6 hne, hcp]⟩
  · obtain ⟨pair, hpair, hfst⟩ := Option.map_eq_some'.mp hstep
    obtain ⟨x, hx, ht1⟩ := blockMined_state t o pair.1 pair.2 hpair
    refine ⟨seb_advanced q o, ?_, ?_⟩
    · rw [← hfst, ht1, maybe_send_state t q o x htq hx]
    · rw [cursorAdvanced, Nat.mod_eq_of_lt htov]
      exact Nat.le_add_right _ _
  · have h1 : u1 = { u with send_every_block := none } :=
      (Option.some.inj ((disable_state u o1).symm.trans hdis)).symm
    have h2 : u2 = { u1 with send_every_block := some p } :=
      (Option.some.inj ((enable_state u1 p o2).symm.trans hena)).symm
    rw [h2]

/-- Fresh pacing configuration used in concrete instantiations. -/
def p7 : SendEveryBlock :=
  { count := 1, blocks := 10, amount_min := 1000, amount_max := 2000,
    descriptor := "wpkh(xpub/0/*)", start_index := 5, actual_index := none }

/-- Connected state with the pacing configuration enabled. -/
def sebState : BitcoinD := { connState with send_every_block := some p7 }

/-- The same state after one zero-count `BlockMined` pass. -/
def sebStateAfter : BitcoinD :=
  { connState with send_every_block := some { p7 with actual_index := some 5 } }

/-- C7 witness: one simulated `BlockMined` event under the all-ok oracle
(whose draw yields a per-block count of 0), plus a disable/re-enable cycle,
instantiated at `start_index = 5`. -/
theorem C7_cursor_accounting_witness :
    (p7.actual_index = none ∧ sebState.send_every_block = some p7 ∧
      run_blocks sebState [okOracle] = some sebStateAfter ∧
      p7.start_index + sumCounts p7.count p7.blocks [okOracle] < U32 ∧
      cursor p7 + txCount p7 okOracle < U32 ∧
      stateAfter sebState .blockMined okOracle = some sebStateAfter ∧
      stateAfter sebState .disableSendEveryBlock okOracle = some connState ∧
      stateAfter connState (.enableSendEveryBlock p7) okOracle = some sebState) ∧
    (∃ q', sebStateAfter.send_every_block = some q' ∧
        cursor q' = p7.start_index + sumCounts p7.count p7.blocks [okOracle] ∧
        ([okOracle] ≠ ([] : List Oracle) →
          q'.actual_index = some (p7.start_index + sumCounts p7.count p7.blocks [okOracle]))) ∧
    (∃ q', sebStateAfter.send_every_block = some q' ∧ cursor p7 ≤ cursor q') ∧
    sebState.send_every_block = some p7 ∧ cursor p7 = p7.start_index := by
  refine ⟨⟨rfl, rfl, rfl, by decide, by decide, rfl, rfl, rfl⟩, ?_⟩
  exact C7_cursor_accounting p7 [okOracle] sebState sebStateAfter sebState sebStateAfter
    sebState connState sebState p7 okOracle okOracle okOracle
    rfl rfl rfl (by decide) rfl (by decide) rfl rfl rfl

lemma send_to_address_no_derive (s : BitcoinD) (addr : String) (amt : ℕ) (o : Oracle)
    (i : ℕ) : Action.derive i ∉ (send_to_address s addr amt o).2 := by
  unfold send_to_address
  split
  · rcases h2 : o.sendToAddressRpc addr amt with _ | e <;> simp [h2]
  · simp

lemma seb_loop_derive_mem (s : BitcoinD) (o : Oracle) (lo hi : ℕ) (d : String) :
    ∀ (l : List ℕ) (r : Except Error Unit) (acts : List Action) (i : ℕ),
      seb_loop s o lo hi d l = some (r, acts) → Action.derive i ∈ acts → i ∈ l := by
  intro l
  induction l with
  | nil =>
    intro r acts i h hmem
    simp only [seb_loop, Option.some.injEq, Prod.mk.injEq] at h
    rw [← h.2] at hmem
    simp at hmem
  | cons j rest ih =>
    intro r acts i h hmem
    simp only [seb_loop] at h
    rcases hra : random_amount o lo hi with _ | amt <;> simp only [hra] at h
    · exact absurd h (by simp)
    · rcases hpk : o.parseOk d with _ | _ <;> simp only [hpk, Bool.false_eq_true,
        if_false, if_true, Option.some.injEq, Prod.mk.injEq] at h
      · rw [← h.2] at hmem
        simp at hmem
      · rcases had : address_from_descriptor o d j with e | addr <;> simp only [had] at h
        · simp only [Option.some.injEq, Prod.mk.injEq] at h
          rw [← h.2] at hmem
          simp only [List.mem_singleton, Action.derive.injEq] at hmem
          rw [hmem]
          exact List.mem_cons_self j rest
        · rcases hsd : send_to_address s addr amt o with ⟨r2, acts2⟩
          simp only [hsd] at h
          cases r2 with
          | error e =>
            simp only [Option.some.injEq, Prod.mk.injEq] at h
            rw [← h.2] at hmem
            rcases List.mem_cons.mp hmem with hj | hin
            · rw [Action.derive.inj hj]
              exact List.mem_cons_self j rest
            · have hnd := send_to_address_no_derive s addr amt o i
              rw [hsd] at hnd
              exact absurd hin hnd
          | ok v =>
            cases v
            rcases hrec : seb_loop s o lo hi d rest with _ | ⟨r3, acts3⟩ <;>
              simp only [hrec] at h
            · exact absurd h (by simp)
            · simp only [Option.some.injEq, Prod.mk.injEq] at h
              rw [← h.2] at hmem
              rcases List.mem_cons.mp hmem with hj | hin
              · rw [Action.derive.inj hj]
                exact List.mem_cons_self j rest
              · rcases List.mem_append.mp hin with h1 | h2
                · have hnd := send_to_address_no_derive s addr amt o i
                  rw [hsd] at hnd
                  exact absurd h1 hnd
                · exact List.mem_cons_of_mem j (ih r3 acts3 i hrec h2)

/-- C10 (implicit): in `maybe_send_every_block` the cursor is advanced by the
full computed count before any derivation or send: with a derivation failure
at the very first index, the pass returns an error having sent nothing, yet
`actual_index` ends at `cursor + count`; any later pass derives only indices
at or above that advanced cursor, so the unsent indices of the failed batch
are never retried. -/
theorem C10_no_cursor_rollback (s : BitcoinD) (p : SendEveryBlock) (o : Oracle)
    (hs : s.send_every_block = some p)
    (hparse : o.parseOk p.descriptor = true)
    (hlo : p.amount_min < p.amount_max)
    (hfail : o.singleDerive p.descriptor (cursor p) = .error .deriveFail)
    (hk : 1 ≤ txCount p o)
    (hov : cursor p + txCount p o < U32) :
    maybe_send_every_block s o =
      some ({ s with send_every_block := some (seb_advanced p o) },
        .error .deriveDescriptor, [.derive (cursor p)]) ∧
    (seb_advanced p o).actual_index = some (cursor p + txCount p o) ∧
    (∀ (o2 : Oracle) (s2 : BitcoinD) (r2 : Except Error Unit) (acts2 : List Action) (i : ℕ),
      maybe_send_every_block { s with send_every_block := some (seb_advanced p o) } o2 =
        some (s2, r2, acts2) →
      Action.derive i ∈ acts2 → cursor p + txCount p o ≤ i) := by
  obtain ⟨k', hk'⟩ : ∃ k', txCount p o = k' + 1 := ⟨txCount p o - 1, by omega⟩
  have hidx : seb_indices p o = cursor p :: List.range' (cursor p + 1) k' := by
    unfold seb_indices
    rw [Nat.mod_eq_of_lt hov, Nat.add_sub_cancel_left, hk', List.range'_succ]
  have hloop : seb_loop { s with send_every_block := some (seb_advanced p o) } o
      p.amount_min p.amount_max p.descriptor (cursor p :: List.range' (cursor p + 1) k') =
      some (.error .deriveDescriptor, [.derive (cursor p)]) := by
    simp only [seb_loop, random_amount, if_pos hlo, hparse, if_true,
      address_from_descriptor, hfail, DeriveFailure.toError]
  refine ⟨?_, ?_, ?_⟩
  · simp only [maybe_send_every_block, hs, hidx, hloop]
  · unfold seb_advanced
    simp [Nat.mod_eq_of_lt hov]
  · intro o2 s2 r2 acts2 i hm hmem
    have hcq : cursor (seb_advanced p o) = cursor p + txCount p o := by
      rw [cursorAdvanced, Nat.mod_eq_of_lt hov]
    simp only [maybe_send_every_block, seb_advanced_min, seb_advanced_max,
      seb_advanced_descr] at hm
    rcases hloop2 : seb_loop
        { s with send_every_block := some (seb_advanced (seb_advanced p o) o2) } o2
        p.amount_min p.amount_max p.descriptor (seb_indices (seb_advanced p o) o2) with
        _ | ⟨r3, acts3⟩ <;> simp only [hloop2] at hm
    · exact absurd hm (by simp)
    · simp only [Option.some.injEq, Prod.mk.injEq] at hm
      have hmem3 : Action.derive i ∈ acts3 := by
        rw [hm.2.2]
        exact hmem
      have hin := seb_loop_derive_mem
        { s with send_every_block := some (seb_advanced (seb_advanced p o) o2) }
        o2 p.amount_min p.amount_max p.descriptor
        (seb_indices (seb_advanced p o) o2) r3 acts3 i hloop2 hmem3
      unfold seb_indices at hin
      have h9 := (List.mem_range'_1.mp hin).1
      rw [hcq] at h9
      exact h9

/-- Oracle whose draw forces a per-block count of one and whose descriptor
derivation always fails. -/
def oDeriveFail : Oracle :=
  { okOracle with draw := fun _ => 5000, singleDerive := fun _ _ => .error .deriveFail }

/-- C10 witness: the statement instantiated at the enabled pacing state, with
a count-one draw and a derivation failure at the cursor. -/
theorem C10_no_cursor_rollback_witness :
    (sebState.send_every_block = some p7 ∧
      oDeriveFail.parseOk p7.descriptor = true ∧
      p7.amount_min < p7.amount_max ∧
      oDeriveFail.singleDerive p7.descriptor (cursor p7) = .error .deriveFail ∧
      1 ≤ txCount p7 oDeriveFail ∧
      cursor p7 + txCount p7 oDeriveFail < U32) ∧
    maybe_send_every_block sebState oDeriveFail =
      some ({ sebState with send_every_block := some (seb_advanced p7 oDeriveFail) },
        .error .deriveDescriptor, [.derive (cursor p7)]) ∧
    (seb_advanced p7 oDeriveFail).actual_index = some (cursor p7 + txCount p7 oDeriveFail) ∧
    (∀ (o2 : Oracle) (s2 : BitcoinD) (r2 : Except Error Unit) (acts2 : List Action) (i : ℕ),
      maybe_send_every_block
          { sebState with send_every_block := some (seb_advanced p7 oDeriveFail) } o2 =
        some (s2, r2, acts2) →
      Action.derive i ∈ acts2 → cursor p7 + txCount p7 oDeriveFail ≤ i) := by
  refine ⟨⟨rfl, rfl, by decide, rfl, by decide, by decide⟩, ?_⟩
  exact C10_no_cursor_rollback sebState p7 oDeriveFail rfl rfl (by decide) rfl
    (by decide) (by decide)

/-- Generate-class commands: the four one-shot block-generation messages. -/
def isGenClass : BitcoinMessage → Bool
  | .generate _ => true
  | .generateToSelf _ => true
  | .generateToAddress _ _ => true
  | .generateToDescriptor _ => true
  | _ => false

lemma update_data_no_gate (s : BitcoinD) (o : Oracle) :
    Action.setGate ∉ update_data s o ∧ Action.clearGate ∉ update_data s o := by
  unfold update_data
  constructor <;>
  · split <;> split <;> simp

lemma refreshData_mem_update_data (s : BitcoinD) (o : Oracle) :
    Action.refreshData ∈ update_data s o := by
  unfold update_data
  exact List.mem_cons_self _ _

lemma genResp_no_gate (r : Except Error Unit) :
    Action.setGate ∉ genResp r ∧ Action.clearGate ∉ genResp r := by
  cases r <;> simp [genResp]

lemma generate_to_address_no_gate (s : BitcoinD) (blocks : ℕ) (addr : String) (o : Oracle) :
    Action.setGate ∉ (generate_to_address s blocks addr o).2 ∧
    Action.clearGate ∉ (generate_to_address s blocks addr o).2 := by
  cases hc : s.client
  · simp [generate_to_address, hc]
  · rcases hg : o.generateToAddressRpc blocks addr with e | v <;>
      simp [generate_to_address, hc, hg]

lemma generate_no_gate (s : BitcoinD) (blocks : ℕ) (o : Oracle) :
    Action.setGate ∉ (generate s blocks o).2 ∧
    Action.clearGate ∉ (generate s blocks o).2 := by
  unfold generate
  exact generate_to_address_no_gate s blocks o.freshAddress o

lemma generate_to_self_no_gate (s : BitcoinD) (blocks : ℕ) (o : Oracle) :
    Action.setGate ∉ (generate_to_self s blocks o).2 ∧
    Action.clearGate ∉ (generate_to_self s blocks o).2 := by
  cases hw : s.wallet_client
  · simp [generate_to_self, hw]
  · rcases hn : o.getNewAddressRpc with e | a
    · simp [generate_to_self, hw, hn]
    · have hga := generate_to_address_no_gate s blocks a o
      rcases hg : generate_to_address s blocks a o with ⟨r, acts⟩
      rw [hg] at hga
      simp only [generate_to_self, hw, hn, hg]
      constructor <;> (intro hmem; rcases List.mem_cons.mp hmem with h | h)
      · exact absurd h (by simp)
      · exact hga.1 h
      · exact absurd h (by simp)
      · exact hga.2 h

lemma gen_desc_loop_no_gate (s : BitcoinD) (o : Oracle) (d : String) :
    ∀ l : List ℕ, Action.setGate ∉ (gen_desc_loop s o d l).2 ∧
      Action.clearGate ∉ (gen_desc_loop s o d l).2 := by
  intro l
  induction l with
  | nil => simp [gen_desc_loop]
  | cons i rest ih =>
    rcases had : address_from_descriptor o d i with e | addr
    · simp [gen_desc_loop, had]
    · have hga := generate_to_address_no_gate s 1 addr o
      rcases hg : generate_to_address s 1 addr o with ⟨r, acts⟩
      rw [hg] at hga
      rcases hrec : gen_desc_loop s o d rest with ⟨r2, acts2⟩
      rw [hrec] at ih
      cases r with
      | error e2 =>
        simp only [gen_desc_loop, had, hg]
        constructor <;> (intro hmem; rcases List.mem_cons.mp hmem with h | h)
        · exact absurd h (by simp)
        · exact hga.1 h
        · exact absurd h (by simp)
        · exact hga.2 h
      | ok v =>
        cases v
        simp only [gen_desc_loop, had, hg, hrec]
        constructor <;> (intro hmem; rcases List.mem_cons.mp hmem with h | h)
        · exact absurd h (by simp)
        · rcases List.mem_append.mp h with h1 | h1
          · rcases List.mem_append.mp h1 with h2 | h2
            · exact hga.1 h2
            · exact absurd h2 (by simp)
          · exact ih.1 h1
        · exact absurd h (by simp)
        · rcases List.mem_append.mp h with h1 | h1
          · rcases List.mem_append.mp h1 with h2 | h2
            · exact hga.2 h2
            · exact absurd h2 (by simp)
          · exact ih.2 h1

lemma generate_to_descriptor_no_gate (s : BitcoinD) (p : GenerateToDescriptor) (o : Oracle) :
    Action.setGate ∉ (generate_to_descriptor s p o).2 ∧
    Action.clearGate ∉ (generate_to_descriptor s p o).2 := by
  unfold generate_to_descriptor
  cases hp : o.parseOk p.descriptor
  · simp
  · simp only [if_true]
    exact gen_desc_loop_no_gate s o p.descriptor _

lemma no_gate_mid (body : Except Error Unit × List Action) (s : BitcoinD) (o : Oracle)
    (hb1 : Action.setGate ∉ body.2) (hb2 : Action.clearGate ∉ body.2) :
    (Action.setGate ∉ body.2 ++ genResp body.1 ++ update_data s o) ∧
    (Action.clearGate ∉ body.2 ++ genResp body.1 ++ update_data s o) := by
  constructor <;> (intro hmem; rcases List.mem_append.mp hmem with h | h)
  · rcases List.mem_append.mp h with h1 | h1
    · exact hb1 h1
    · exact (genResp_no_gate body.1).1 h1
  · exact (update_data_no_gate s o).1 h
  · rcases List.mem_append.mp h with h1 | h1
    · exact hb2 h1
    · exact (genResp_no_gate body.1).2 h1
  · exact (update_data_no_gate s o).2 h

lemma handle_connect_busy (s : BitcoinD) (o : Oracle) :
    (handle_connect s o).1.mining_busy = s.mining_busy := by
  unfold handle_connect
  split
  · rcases h : connect s o with ⟨r, calls⟩
    cases r with
    | error e => simp [h]
    | ok v =>
      cases v
      simp [h]
  · rfl

lemma start_auto_block_busy (s : BitcoinD) (o : Oracle) :
    (start_auto_block s o).1.mining_busy = s.mining_busy := by
  unfold start_auto_block
  split
  · rcases h : connect { s with auto_block_sender := true } o with ⟨r, calls⟩
    cases r with
    | error e => simp [h]
    | ok v =>
      cases v
      simp [h]
  · rfl

lemma maybe_send_busy (s : BitcoinD) (o : Oracle)
    (x : BitcoinD × Except Error Unit × List Action)
    (h : maybe_send_every_block s o = some x) : x.1.mining_busy = s.mining_busy := by
  cases hs : s.send_every_block with
  | none =>
    unfold maybe_send_every_block at h
    simp only [hs] at h
    rw [← Option.some.inj h]
  | some p =>
    rw [maybe_send_state s p o x hs h]

lemma handle_message_preserves_unbusy (s : BitcoinD) (msg : BitcoinMessage) (o : Oracle)
    (s1 : BitcoinD) (acts : List Action)
    (hb : s.mining_busy = false)
    (h : handle_message s msg o = some (s1, acts)) : s1.mining_busy = false := by
  cases msg with
  | setCredentials a au =>
    simp only [handle_message, Option.some.injEq, Prod.mk.injEq] at h
    rw [← h.1]
    exact hb
  | connect =>
    rcases hc : handle_connect s o with ⟨t, acts1⟩
    simp only [handle_message, hc, Option.some.injEq, Prod.mk.injEq] at h
    have hcb := handle_connect_busy s o
    rw [hc] at hcb
    rw [← h.1]
    exact hcb.trans hb
  | disconnect =>
    cases hic : is_connected s <;>
      simp only [handle_message, hic, Bool.false_eq_true, if_false, if_true, disconnect,
        Option.some.injEq, Prod.mk.injEq] at h <;> rw [← h.1] <;> exact hb
  | getNewAddress =>
    rcases hn : get_new_address s o with ⟨r, acts1⟩
    cases r <;>
      simp only [handle_message, hn, Option.some.injEq, Prod.mk.injEq] at h <;>
      rw [← h.1] <;> exact hb
  | generate blocks =>
    simp only [handle_message, hb, gen_gate, Option.some.injEq, Prod.mk.injEq] at h
    rw [← h.1]
  | generateToSelf blocks =>
    simp only [handle_message, hb, gen_gate, Option.some.injEq, Prod.mk.injEq] at h
    rw [← h.1]
  | generateToAddress blocks addr =>
    simp only [handle_message, hb, gen_gate, Option.some.injEq, Prod.mk.injEq] at h
    rw [← h.1]
  | generateToDescriptor p =>
    simp only [handle_message, hb, gen_gate, Option.some.injEq, Prod.mk.injEq] at h
    rw [← h.1]
  | sendToAddress amount addr =>
    rcases hsa : send_to_address s addr amount o with ⟨r, acts1⟩
    simp only [handle_message, hsa, Option.some.injEq, Prod.mk.injEq] at h
    rw [← h.1]
    exact hb
  | sendToDescriptor p =>
    rcases hsd : send_to_descriptor s p o with _ | ⟨r, acts1⟩ <;>
      simp only [handle_message, hsd] at h
    · exact absurd h (by simp)
    · simp only [Option.some.injEq, Prod.mk.injEq] at h
      rw [← h.1]
      exact hb
  | blockMined =>
    rcases hm : maybe_send_every_block s o with _ | ⟨t, r, acts1⟩ <;>
      simp only [handle_message, hm] at h
    · exact absurd h (by simp)
    · have hmb := maybe_send_busy s o (t, r, acts1) hm
      cases r <;> simp only [Option.some.injEq, Prod.mk.injEq] at h <;> rw [← h.1] <;>
        exact hmb.trans hb
  | minerStopped =>
    simp only [handle_message, Option.some.injEq, Prod.mk.injEq] at h
    rw [← h.1]
    exact hb
  | batchSent =>
    simp only [handle_message, Option.some.injEq, Prod.mk.injEq] at h
    rw [← h.1]
    exact hb
  | enableSendEveryBlock p =>
    simp only [handle_message, Option.some.injEq, Prod.mk.injEq] at h
    rw [← h.1]
    exact hb
  | disableSendEveryBlock =>
    simp only [handle_message, Option.some.injEq, Prod.mk.injEq] at h
    rw [← h.1]
    exact hb
  | startAutoBlock d =>
    rcases hsa : start_auto_block s o with ⟨t, r, acts1⟩
    have hsb := start_auto_block_busy s o
    rw [hsa] at hsb
    cases r <;>
      simp only [handle_message, hsa, Option.some.injEq, Prod.mk.injEq] at h <;>
      rw [← h.1] <;> exact hsb.trans hb
  | stopAutoBlock =>
    simp only [handle_message, Option.some.injEq, Prod.mk.injEq] at h
    rw [← h.1]
    exact hb
  | updateBlockchainTip n =>
    simp only [handle_message, Option.some.injEq, Prod.mk.injEq] at h
    rw [← h.1]
    exact hb
  | updateBalance n =>
    simp only [handle_message, Option.some.injEq, Prod.mk.injEq] at h
    rw [← h.1]
    exact hb
  | generateResponse b =>
    simp only [handle_message, Option.some.injEq, Prod.mk.injEq] at h
    rw [← h.1]
    exact hb
  | sendResponse b =>
    simp only [handle_message, Option.some.injEq, Prod.mk.injEq] at h
    rw [← h.1]
    exact hb
  | sendMessage t =>
    simp only [handle_message, Option.some.injEq, Prod.mk.injEq] at h
    rw [← h.1]
    exact hb
  | connected b =>
    simp only [handle_message, Option.some.injEq, Prod.mk.injEq] at h
    rw [← h.1]
    exact hb
  | newAddress a =>
    simp only [handle_message, Option.some.injEq, Prod.mk.injEq] at h
    rw [← h.1]
    exact hb
  | incrementSendDescriptorIndex =>
    simp only [handle_message, Option.some.injEq, Prod.mk.injEq] at h
    rw [← h.1]
    exact hb
  | incrementGenerateDescriptorIndex =>
    simp only [handle_message, Option.some.injEq, Prod.mk.injEq] at h
    rw [← h.1]
    exact hb
  | failMineBlock reason =>
    simp only [handle_message, Option.some.injEq, Prod.mk.injEq] at h
    rw [← h.1]
    exact hb

lemma gen_arm (s : BitcoinD) (o : Oracle) (body : Except Error Unit × List Action)
    (hng : Action.setGate ∉ body.2 ∧ Action.clearGate ∉ body.2) :
    ∃ mid, gen_gate s o body =
        ({ s with mining_busy := false }, Action.setGate :: mid ++ [Action.clearGate]) ∧
      Action.refreshData ∈ mid ∧ Action.setGate ∉ mid ∧ Action.clearGate ∉ mid := by
  refine ⟨body.2 ++ genResp body.1 ++ update_data s o, rfl, ?_,
    (no_gate_mid body s o hng.1 hng.2).1, (no_gate_mid body s o hng.1 hng.2).2⟩
  exact List.mem_append.mpr (Or.inr (refreshData_mem_update_data s o))

/-- C8: mining mutual exclusion.  A generate-class command arriving while the
gate is set is dropped without any state change or action; arriving while the
gate is clear, its trace opens by setting the gate and closes by clearing it,
with the status refresh (and every other action, RPC calls included) strictly
in between and no other gate transition, and the final state has the gate
clear; and handling any message from a gate-clear state leaves the gate
clear. -/
theorem C8_mining_gate (s s2 s12 : BitcoinD) (o o2 : Oracle) (msg msg2 : BitcoinMessage)
    (hgen : isGenClass msg = true)
    (h2a : s2.mining_busy = false)
    (h2b : stateAfter s2 msg2 o2 = some s12) :
    (s.mining_busy = true → handle_message s msg o = some (s, [])) ∧
    (s.mining_busy = false →
      ∃ mid, handle_message s msg o =
          some ({ s with mining_busy := false },
            Action.setGate :: mid ++ [Action.clearGate]) ∧
        Action.refreshData ∈ mid ∧
        Action.setGate ∉ mid ∧ Action.clearGate ∉ mid) ∧
    s12.mining_busy = false := by
  refine ⟨?_, ?_, ?_⟩
  · intro hbt
    obtain ⟨c, w, ad, au, mb, ab2, seb⟩ := s
    cases mb
    · simp at hbt
    · cases msg <;> simp [isGenClass] at hgen <;> rfl
  · intro hbf
    obtain ⟨c, w, ad, au, mb, ab2, seb⟩ := s
    cases mb
    case true => simp at hbf
    case false =>
      cases msg <;> simp [isGenClass] at hgen
      case generate blocks =>
        obtain ⟨mid, hg, hm2, hm3, hm4⟩ :=
          gen_arm (⟨c, w, ad, au, false, ab2, seb⟩ : BitcoinD) o
            (generate ⟨c, w, ad, au, false, ab2, seb⟩ blocks o)
            (generate_no_gate ⟨c, w, ad, au, false, ab2, seb⟩ blocks o)
        refine ⟨mid, ?_, hm2, hm3, hm4⟩
        rw [← hg]
        exact rfl
      case generateToSelf blocks =>
        obtain ⟨mid, hg, hm2, hm3, hm4⟩ :=
          gen_arm (⟨c, w, ad, au, false, ab2, seb⟩ : BitcoinD) o
            (generate_to_self ⟨c, w, ad, au, false, ab2, seb⟩ blocks o)
            (generate_to_self_no_gate ⟨c, w, ad, au, false, ab2, seb⟩ blocks o)
        refine ⟨mid, ?_, hm2, hm3, hm4⟩
        rw [← hg]
        exact rfl
      case generateToAddress blocks addr =>
        obtain ⟨mid, hg, hm2, hm3, hm4⟩ :=
          gen_arm (⟨c, w, ad, au, false, ab2, seb⟩ : BitcoinD) o
            (generate_to_address ⟨c, w, ad, au, false, ab2, seb⟩ blocks addr o)
            (generate_to_address_no_gate ⟨c, w, ad, au, false, ab2, seb⟩ blocks addr o)
        refine ⟨mid, ?_, hm2, hm3, hm4⟩
        rw [← hg]
        exact rfl
      case generateToDescriptor p =>
        obtain ⟨mid, hg, hm2, hm3, hm4⟩ :=
          gen_arm (⟨c, w, ad, au, false, ab2, seb⟩ : BitcoinD) o
            (generate_to_descriptor ⟨c, w, ad, au, false, ab2, seb⟩ p o)
            (generate_to_descriptor_no_gate ⟨c, w, ad, au, false, ab2, seb⟩ p o)
        refine ⟨mid, ?_, hm2, hm3, hm4⟩
        rw [← hg]
        exact rfl
  · obtain ⟨pair, hpair, hfst⟩ := Option.map_eq_some'.mp h2b
    rw [← hfst]
    exact handle_message_preserves_unbusy s2 msg2 o2 pair.1 pair.2 h2a hpair

/-- C8 witness: a `Generate(1)` command from the connected gate-clear state,
and gate preservation across a `GetNewAddress` command. -/
theorem C8_mining_gate_witness :
    (isGenClass (.generate 1) = true ∧
      connState.mining_busy = false ∧
      stateAfter connState .getNewAddress okOracle = some connState) ∧
    ((connState.mining_busy = true →
        handle_message connState (.generate 1) okOracle = some (connState, [])) ∧
      (connState.mining_busy = false →
        ∃ mid, handle_message connState (.generate 1) okOracle =
            some ({ connState with mining_busy := false },
              Action.setGate :: mid ++ [Action.clearGate]) ∧
          Action.refreshData ∈ mid ∧
          Action.setGate ∉ mid ∧ Action.clearGate ∉ mid) ∧
      connState.mining_busy = false) :=
  ⟨⟨rfl, rfl, rfl⟩,
    C8_mining_gate connState connState connState okOracle okOracle
      (.generate 1) .getNewAddress rfl rfl rfl⟩

end Minta
